import Mathlib

/-
Verification of the YATA RAG_chroma retrieval engine against its design
specification.  The definitions below are a shallow embedding of the Python
sources under algorithms/RAG_chroma/ (travel_rag_full_exporter.py, ingest.py,
db.py, search.py, config.py).  Floating-point scores are embedded as rationals;
the external chromadb collection operations, which are not part of the
repository, are modelled from the specification where noted.
-/

set_option maxHeartbeats 1000000
set_option maxRecDepth 40000

attribute [local semireducible] Rat.add Rat.sub Rat.mul Rat.inv Rat.ofScientific

namespace YataRag

/-- Python whitespace (the ASCII portion of the regex whitespace class). -/
def pyIsSpace (c : Char) : Bool :=
  c = ' ' || c = '\t' || c = '\n' || c = '\r' || c = '\x0b' || c = '\x0c'

/-- Strip leading and trailing whitespace from a character list (Python str.strip). -/
def pyStripL (l : List Char) : List Char :=
  ((l.dropWhile pyIsSpace).reverse.dropWhile pyIsSpace).reverse

/-- Python str.strip on strings. -/
def pyStrip (s : String) : String :=
  String.mk (pyStripL s.data)

/-- Collapse every maximal run of whitespace into a single space: the
substitution of the whitespace-run regex by a single space performed by
clean_text in travel_rag_full_exporter.py. -/
def collapseWS : List Char → List Char
  | [] => []
  | [c] => if pyIsSpace c then [' '] else [c]
  | c :: d :: rest =>
    if pyIsSpace c then
      if pyIsSpace d then collapseWS (d :: rest)
      else ' ' :: collapseWS (d :: rest)
    else c :: collapseWS (d :: rest)

/-- clean_text from travel_rag_full_exporter.py (lines 37-40): collapse
whitespace runs to single spaces, then strip. -/
def clean_text (s : String) : String :=
  String.mk (pyStripL (collapseWS s.data))

/-- The sentence-terminal characters of the splitting regex in split_text. -/
def isTerminator (c : Char) : Bool :=
  c = '。' || c = '？' || c = '！' || c = '.' || c = '?' || c = '!' || c = '\n'

/-- re.split on the terminator character class: the segments between terminator
occurrences, empty segments included, exactly as re.split produces them. -/
def splitTerm : List Char → List (List Char)
  | [] => [[]]
  | c :: rest =>
    if isTerminator c then [] :: splitTerm rest
    else
      match splitTerm rest with
      | [] => [[c]]
      | seg :: segs => (c :: seg) :: segs

/-- The sentence list of split_text, as strings. -/
def splitTermS (s : String) : List String :=
  (splitTerm s.data).map String.mk

/-- Concatenation of the buffered sentences (the join of the buffer). -/
def joinBuf : List String → String
  | [] => ""
  | s :: rest => s ++ joinBuf rest

/-- The sentence-accumulation loop of split_text
(travel_rag_full_exporter.py lines 48-68).  The state is the buffer `current`
of accumulated sentences and its total character count `length`. -/
def splitLoop (min_len max_len : Nat) : List String → List String → Nat → List String
  | [], current, _ =>
    if current = [] then [] else [joinBuf current]
  | s :: rest, current, length =>
    if pyStrip s = "" then splitLoop min_len max_len rest current length
    else if max_len < length + (pyStrip s).length then
      if current = [] then
        pyStrip s :: splitLoop min_len max_len rest current length
      else
        joinBuf current :: splitLoop min_len max_len rest [pyStrip s] (pyStrip s).length
    else if min_len ≤ length + (pyStrip s).length then
      joinBuf (current ++ [pyStrip s]) :: splitLoop min_len max_len rest [] 0
    else
      splitLoop min_len max_len rest (current ++ [pyStrip s]) (length + (pyStrip s).length)

/-- split_text from travel_rag_full_exporter.py (lines 43-69): clean the text,
split it into sentences on terminal punctuation, accumulate sentences
greedily, and finally drop every chunk shorter than 100 characters. -/
def split_text (text : String) (min_len max_len : Nat) : List String :=
  let cleaned := clean_text text
  if cleaned = "" then []
  else (splitLoop min_len max_len (splitTermS cleaned) [] 0).filter (fun c => 100 ≤ c.length)

/-- The stripped, non-empty sentences that split_text processes: the escape
clause of the chunk-length bound is stated for these. -/
def sentencesOf (text : String) : List String :=
  ((splitTermS (clean_text text)).map pyStrip).filter (fun s => s ≠ "")

/-- Python `a or b` on optional strings: a None or empty string falls through
to the second operand. -/
def pyOr (a b : Option String) : Option String :=
  match a with
  | some s => if s = "" then b else some s
  | none => b

/-- The fields of config.Settings read by the embedded functions, with the
defaults of config.py. -/
structure Settings where
  top_k : Nat := 5
  min_score : ℚ := 15 / 100
  use_query_expansion : Bool := true
  use_reranking : Bool := true
  rerank_top_k : Nat := 20
deriving DecidableEq, Repr

/-- The string metadata stored with every indexed record, as assembled by
db.insert_documents (lines 125-159). -/
structure RecMeta where
  city : String
  language : String
  title : String
  url : String
  source_file : String
  chunk_index : String
  timestamp : Option String
  author : Option String
  day : Option String
  extra : List (String × String)
deriving DecidableEq, Repr

/-- An indexed record of the Chroma collection: id, embedding vector,
document text and metadata. -/
structure IndexedRec where
  id : String
  embedding : List ℚ
  document : String
  meta : RecMeta
deriving DecidableEq, Repr

/-- The persistent collection.  `dim` is the dimensionality fixed by the
first add; it is none while nothing has ever been added. -/
structure Collection where
  dim : Option Nat
  recs : List IndexedRec
deriving DecidableEq, Repr

/-- A freshly created, empty collection. -/
def emptyColl : Collection := { dim := none, recs := [] }

/-- A row dictionary handed to db.insert_documents, with the keys that
ingest.load_rows_from_file produces (lines 102-115).  A none in city,
language, title, url or timestamp stands for a stored Python None; a none in
source_file or chunk_index stands for a missing key.  The meta values stand
for the already-serialized strings that insert_documents would produce from
them. -/
structure Row where
  city : Option String
  language : Option String
  title : Option String
  url : Option String
  source_file : Option String
  chunk_index : Option Nat
  content : String
  embedding : Option (List ℚ)
  timestamp : Option String
  author : Option String
  day : Option String
  meta : List (String × String)
deriving DecidableEq, Repr

/-- Python str() of an optional string value: str(None) is the string None. -/
def pyStrOpt : Option String → String
  | some s => s
  | none => "None"

/-- The record id of db.insert_documents line 109: source_file and
chunk_index joined by an underscore, with the loop index as fallback. -/
def docId (idx : Nat) (row : Row) : String :=
  (row.source_file.getD ("unknown")) ++ "_" ++
    (match row.chunk_index with
     | some n => Nat.repr n
     | none => Nat.repr idx)

/-- The metadata dictionary built for one row by db.insert_documents
(lines 125-159): str conversions of the fixed fields, timestamp, author and
day only when truthy, and the extra meta entries prefixed with meta_. -/
def metaOfRow (row : Row) : RecMeta :=
  { city := pyStrOpt row.city
    language := pyStrOpt row.language
    title := pyStrOpt row.title
    url := pyStrOpt row.url
    source_file := row.source_file.getD ("")
    chunk_index :=
      match row.chunk_index with
      | some n => Nat.repr n
      | none => ""
    timestamp :=
      match row.timestamp with
      | some t => if t = "" then none else some t
      | none => none
    author :=
      match row.author with
      | some a => if a = "" then none else some a
      | none => none
    day :=
      match row.day with
      | some d => if d = "" then none else some d
      | none => none
    extra := row.meta.map (fun kv => ("meta_" ++ kv.1, kv.2)) }

/-- Replace every record holding this id, else append (the spec's upsert:
records are written keyed by id and re-upserting an existing id replaces it). -/
def upsertOne (l : List IndexedRec) (r : IndexedRec) : List IndexedRec :=
  if l.any (fun x => x.id = r.id) then
    l.map (fun x => if x.id = r.id then r else x)
  else l ++ [r]

/-- Write a batch of records keyed by id. -/
def upsertAll (l : List IndexedRec) (new : List IndexedRec) : List IndexedRec :=
  new.foldl upsertOne l

/-- Zip the four parallel argument lists of an add call into records. -/
def zipRecs : List String → List (List ℚ) → List String → List RecMeta → List IndexedRec
  | i :: is, e :: es, d :: ds, m :: ms =>
    { id := i, embedding := e, document := d, meta := m } :: zipRecs is es ds ms
  | _, _, _, _ => []

/-- Error message of an add call with unequal argument list lengths. -/
def lenMismatchMsg : String := "add: ids, embeddings, documents and metadatas must have equal lengths"

/-- Error message of an add call with a wrong-dimensionality embedding. -/
def dimMismatchMsg : String := "add: embedding dimensionality does not match the collection"

/-- Modelled from the spec: chromadb.Collection.add is not part of the
repository.  Per spec section 4.2, a call whose argument lists are misaligned
or that carries a vector whose length does not match the collection
dimensionality fails whole, without mutating the collection; otherwise all
records are written keyed by id.  A fresh collection takes its dimensionality
from the first embedding added. -/
def chromaAdd (ids : List String) (embeddings : List (List ℚ))
    (documents : List String) (metadatas : List RecMeta)
    (c : Collection) : Except String Collection :=
  if ids.length = embeddings.length ∧ ids.length = documents.length ∧
      ids.length = metadatas.length then
    match c.dim, embeddings.head? with
    | some d, _ =>
      if embeddings.all (fun e => e.length = d) then
        Except.ok { dim := some d, recs := upsertAll c.recs (zipRecs ids embeddings documents metadatas) }
      else Except.error dimMismatchMsg
    | none, some e0 =>
      if embeddings.all (fun e => e.length = e0.length) then
        Except.ok { dim := some e0.length, recs := upsertAll c.recs (zipRecs ids embeddings documents metadatas) }
      else Except.error dimMismatchMsg
    | none, none => Except.ok c
  else Except.error lenMismatchMsg

/-- db.insert_documents (lines 94-164): an empty row list is a no-op; ids are
collected for every row, but embeddings, documents and metadatas only for
rows that carry an embedding (the source appends the id before checking the
embedding, so a row without one misaligns the lists). -/
def insert_documents (rows : List Row) (c : Collection) : Except String Collection :=
  if rows = [] then Except.ok c
  else
    let ids := rows.enum.map (fun p => docId p.1 p.2)
    let embRows := rows.filter (fun r => r.embedding.isSome)
    let embeddings := embRows.filterMap (fun r => r.embedding)
    let documents := embRows.map (fun r => r.content)
    let metadatas := embRows.map metaOfRow
    chromaAdd ids embeddings documents metadatas c

/-- db.delete_by_source (lines 167-171): remove every record whose
source_file metadata equals the given name. -/
def delete_by_source (source_file : String) (c : Collection) : Collection :=
  { c with recs := c.recs.filter (fun r => r.meta.source_file ≠ source_file) }

/-- db._get_collection (lines 25-84) on the cache-miss path (the module-level
collection handle of a fresh process is still None).  Returns the collection
handle and the new persistent state: an existing non-empty collection whose
first sampled embedding has a different, non-zero length than the requested
dimensionality is deleted and recreated empty; otherwise the existing
collection (or a newly created one) is used as is. -/
def getCollectionFresh (store : Option Collection) (embedding_dim : Nat) :
    Collection × Option Collection :=
  match store with
  | none => (emptyColl, some emptyColl)
  | some c =>
    match c.recs.head? with
    | some r0 =>
      if r0.embedding.length ≠ 0 then
        if r0.embedding.length ≠ embedding_dim then (emptyColl, some emptyColl)
        else (c, some c)
      else (c, some c)
    | none => (c, some c)

/-- db.init_db (lines 87-91): ensure the collection exists with the right
dimensionality; returns the new persistent state. -/
def init_db (store : Option Collection) (embedding_dim : Nat) : Option Collection :=
  (getCollectionFresh store embedding_dim).2

/-- Stable insertion into a list ascending in the key: the new element goes
before an existing one only when its key is strictly smaller. -/
def insertAscBy {α : Type} (key : α → ℚ) (x : α) : List α → List α
  | [] => [x]
  | y :: ys => if key x < key y then x :: y :: ys else y :: insertAscBy key x ys

/-- Stable sort ascending in the key. -/
def sortAscBy {α : Type} (key : α → ℚ) : List α → List α
  | [] => []
  | x :: xs => insertAscBy key x (sortAscBy key xs)

/-- The nested result lists of a collection query for a single query
embedding. -/
structure RawQueryResults where
  ids : List (List String)
  documents : List (List String)
  metadatas : List (List RecMeta)
  distances : List (List ℚ)
deriving DecidableEq, Repr

/-- Modelled from the spec: chromadb.Collection.query is not part of the
repository.  Per spec section 4.2, nearest-neighbor search under the distance
function dist, restricted to records matching the city equality filter when a
where clause is given, returning at most n_results results ordered by
increasing distance. -/
def collectionQuery (dist : List ℚ → List ℚ → ℚ) (c : Collection)
    (query_embedding : List ℚ) (n_results : Nat) (whereCity : Option String) :
    RawQueryResults :=
  let eligible :=
    match whereCity with
    | some city => c.recs.filter (fun r => r.meta.city = city)
    | none => c.recs
  let top := (sortAscBy (fun r => dist query_embedding r.embedding) eligible).take n_results
  { ids := [top.map (fun r => r.id)]
    documents := [top.map (fun r => r.document)]
    metadatas := [top.map (fun r => r.meta)]
    distances := [top.map (fun r => dist query_embedding r.embedding)] }

/-- A query result dictionary as built by db.vector_search (lines 242-258).
The rerank fields are absent until search adds them. -/
structure Result where
  id : String
  city : Option String
  language : Option String
  title : Option String
  url : Option String
  source_file : Option String
  chunk_index : Option Nat
  content : String
  score : ℚ
  created_at : Option String
  rerank_score : Option ℚ
  rerank_score_normalized : Option ℚ
deriving DecidableEq, Repr

/-- Python int() on the digit strings stored in the chunk_index metadata. -/
def pyInt (s : String) : Nat :=
  s.data.foldl (fun acc c => acc * 10 + (c.toNat - 48)) 0

/-- db.vector_search (lines 190-260): build the where filter (an empty city
string is falsy in Python, so it produces no filter), query the collection,
and convert each distance to a similarity score via score = 1 - distance / 2,
with the source's defensive indexing into the result lists. -/
def vector_search (dist : List ℚ → List ℚ → ℚ) (c : Collection)
    (query_vector : List ℚ) (top_k : Nat) (city : Option String) : List Result :=
  let whereCity : Option String :=
    match city with
    | some s => if s = "" then none else some s
    | none => none
  let results := collectionQuery dist c query_vector top_k whereCity
  match results.ids with
  | [] => []
  | ids0 :: _ =>
    if ids0 = [] then []
    else
      let docs := results.documents.headD []
      let metas := results.metadatas.headD []
      let distances := results.distances.headD []
      ids0.enum.map (fun p =>
        let distance := (distances.get? p.1).getD 1
        let metaOpt := metas.get? p.1
        { id := p.2
          city := metaOpt.map (fun m => m.city)
          language := metaOpt.map (fun m => m.language)
          title := metaOpt.map (fun m => m.title)
          url := metaOpt.map (fun m => m.url)
          source_file := metaOpt.map (fun m => m.source_file)
          chunk_index :=
            match metaOpt with
            | some m => if m.chunk_index = "" then none else some (pyInt m.chunk_index)
            | none => none
          content := (docs.get? p.1).getD ("")
          score := 1 - distance / 2
          created_at :=
            match metaOpt with
            | some m => m.timestamp
            | none => none
          rerank_score := none
          rerank_score_normalized := none })

/-- The keyword-to-synonyms table of search._expand_query, in the source's
insertion order. -/
def tourismKeywords : List (String × List String) :=
  [ ("attractions", ["places to visit", "landmarks", "sights", "must see"])
  , ("museums", ["galleries", "exhibitions", "collections"])
  , ("weather", ["climate", "temperature", "forecast"])
  , ("restaurants", ["dining", "food", "cuisine", "meals"])
  , ("hotels", ["accommodation", "lodging", "places to stay"])
  , ("shopping", ["markets", "stores", "boutiques"]) ]

/-- Whether the haystack starts with the needle. -/
def startsWithL : List Char → List Char → Bool
  | [], _ => true
  | _ :: _, [] => false
  | a :: as, b :: bs => a = b && startsWithL as bs

/-- Substring containment on character lists (Python `needle in haystack`). -/
def containsSub (needle : List Char) : List Char → Bool
  | [] => startsWithL needle []
  | c :: rest => startsWithL needle (c :: rest) || containsSub needle rest

/-- Python str.lower restricted to the ASCII case mapping. -/
def pyLower (s : String) : String := String.mk (s.data.map Char.toLower)

/-- Python " ".join. -/
def joinSpace : List String → String
  | [] => ""
  | [s] => s
  | s :: rest => s ++ " " ++ joinSpace rest

/-- search._expand_query (search.py lines 9-31): append the first two
synonyms of every table key contained in the lowercased query. -/
def expandQuery (query : String) : String :=
  let query_lower := pyLower query
  let expanded_terms := tourismKeywords.foldl
    (fun acc kv => if containsSub kv.1.data query_lower.data then acc ++ kv.2.take 2 else acc) []
  if expanded_terms = [] then query
  else query ++ " " ++ joinSpace expanded_terms

/-- Python min over a non-empty list, with the head as initial accumulator. -/
def listMin : List ℚ → ℚ
  | [] => 0
  | x :: xs => xs.foldl min x

/-- Python max over a non-empty list, with the head as initial accumulator. -/
def listMax : List ℚ → ℚ
  | [] => 0
  | x :: xs => xs.foldl max x

/-- The min-max normalization of the raw reranker scores
(search.py lines 61-72): an empty list stays empty, and when all raw scores
are equal every normalized score is 1. -/
def normalizeScores (rerank_scores : List ℚ) : List ℚ :=
  match rerank_scores with
  | [] => []
  | rs =>
    let mn := listMin rs
    let mx := listMax rs
    if mn < mx then rs.map (fun x => (x - mn) / (mx - mn))
    else List.replicate rs.length 1

/-- The fused score of search.py line 78: 0.3 times the vector similarity
plus 0.7 times the normalized rerank score. -/
def fuse (original_score norm_rerank : ℚ) : ℚ :=
  3 / 10 * original_score + 7 / 10 * norm_rerank

/-- The score-rewriting loop of search.py lines 75-81: the zipped prefix gets
the fused score and the rerank fields, elements beyond it keep their original
score, and the list length never changes. -/
def applyFused : List Result → List ℚ → List ℚ → List Result
  | f :: fs, r :: rs, n :: ns =>
    { f with score := fuse f.score n, rerank_score := some r, rerank_score_normalized := some n }
      :: applyFused fs rs ns
  | fs, _, _ => fs

/-- The outcome of one search call, with flags recording which external
collaborators were invoked on the taken path. -/
structure SearchTrace where
  results : List Result
  embedCalled : Bool
  indexCalled : Bool
  rerankCalled : Bool
deriving DecidableEq, Repr

/-- The effective result count of search.py line 42: Python
`top_k or settings.top_k`, so a None or zero argument falls back to the
configured top_k. -/
def effectiveK (s : Settings) (top_k : Option Nat) : Nat :=
  match top_k with
  | some t => if t = 0 then s.top_k else t
  | none => s.top_k

/-- The initial retrieval width of search.py line 43. -/
def initialK (s : Settings) (top_k : Option Nat) : Nat :=
  if s.use_reranking then s.rerank_top_k else effectiveK s top_k

/-- The query actually embedded (search.py line 39). -/
def expandedQuery (s : Settings) (query : String) : String :=
  if s.use_query_expansion then expandQuery query else query

/-- search.search (search.py lines 34-87), instrumented with flags recording
calls to the embedding provider, the vector index and the reranking provider.
The external collaborators are passed as functions: embedF for
embedder.embed_texts on one text, rerankF for embedder.rerank, dist for the
index's distance metric. -/
def searchT (dist : List ℚ → List ℚ → ℚ) (coll : Collection)
    (embedF : String → List ℚ) (rerankF : String → List String → List ℚ)
    (s : Settings) (query : String) (city : Option String) (top_k : Option Nat) :
    SearchTrace :=
  if query = "" ∨ pyStrip query = "" then
    { results := [], embedCalled := false, indexCalled := false, rerankCalled := false }
  else
    let k := effectiveK s top_k
    let q_emb := embedF (expandedQuery s query)
    let results := vector_search dist coll q_emb (initialK s top_k) city
    let filtered := results.filter (fun r => s.min_score ≤ r.score)
    if filtered = [] then
      { results := [], embedCalled := true, indexCalled := true, rerankCalled := false }
    else if s.use_reranking = true ∧ 1 < filtered.length then
      let documents := filtered.map (fun r => r.content)
      let rerank_scores := rerankF query documents
      let normalized := normalizeScores rerank_scores
      let fused := applyFused filtered rerank_scores normalized
      let sorted := sortAscBy (fun r => -r.score) fused
      { results := sorted.take k, embedCalled := true, indexCalled := true, rerankCalled := true }
    else
      { results := filtered.take k, embedCalled := true, indexCalled := true, rerankCalled := false }

/-- The result list of a search call. -/
def search (dist : List ℚ → List ℚ → ℚ) (coll : Collection)
    (embedF : String → List ℚ) (rerankF : String → List String → List ℚ)
    (s : Settings) (query : String) (city : Option String) (top_k : Option Nat) :
    List Result :=
  (searchT dist coll embedF rerankF s query city top_k).results

/-- One chunk object of a data JSON file, with the keys that
ingest.load_rows_from_file reads; an absent key is none. -/
structure ChunkData where
  text : Option String
  content : Option String
  embedding : Option (List ℚ)
  title : Option String
  url : Option String
  source_url : Option String
deriving DecidableEq, Repr

/-- An element of the text_chunks list: load_rows_from_file skips entries
that are not dictionaries. -/
inductive ChunkEntry where
  | junk : ChunkEntry
  | chunk : ChunkData → ChunkEntry
deriving DecidableEq, Repr

/-- A data JSON payload as read by load_rows_from_file (lines 32-41).
text_chunks is none when payload.knowledge.text_chunks is missing or not a
list; urls is the urls dictionary as an ordered association list of string
values. -/
structure Payload where
  city_name : Option String
  city : Option String
  lang : Option String
  language : Option String
  timestamp : Option String
  urls : List (String × String)
  text_chunks : Option (List ChunkEntry)
deriving DecidableEq, Repr

/-- First value stored under the key, if any. -/
def lookupUrl (urls : List (String × String)) (k : String) : Option String :=
  (urls.find? (fun kv => kv.1 = k)).map (fun kv => kv.2)

/-- ingest._select_url (lines 14-27): prefer the wikipedia, official and
official_site entries in that order, else the first non-empty value,
else the empty string. -/
def select_url (urls : List (String × String)) : String :=
  let pref := ["wikipedia", "official", "official_site"].filterMap (fun k =>
    match lookupUrl urls k with
    | some v => if v = "" then none else some v
    | none => none)
  match pref with
  | v :: _ => v
  | [] =>
    match urls.filter (fun kv => kv.2 ≠ "") with
    | kv :: _ => kv.2
    | [] => ""

/-- The text of a chunk as read in the embedding-batching pass
(line 54): chunk text, else chunk content, else the empty string,
without stripping. -/
def chunkRawText (cd : ChunkData) : String :=
  (pyOr (pyOr cd.text cd.content) (some (""))).getD ("")

/-- The first pass of load_rows_from_file (lines 50-57): the indices and
texts of the chunks lacking a precomputed embedding, in order. -/
def textsToEmbed (entries : List (Nat × ChunkEntry)) : List (Nat × String) :=
  entries.filterMap (fun p =>
    match p.2 with
    | ChunkEntry.junk => none
    | ChunkEntry.chunk cd =>
      match cd.embedding with
      | some _ => none
      | none =>
        let t := chunkRawText cd
        if t = "" then none else some (p.1, t))

/-- The computed-embedding map of lines 59-64: one batched provider call over
the collected texts, zipped with their chunk indices. -/
def computedMap (embedF : List String → List (List ℚ))
    (entries : List (Nat × ChunkEntry)) : List (Nat × List ℚ) :=
  let tte := textsToEmbed entries
  (tte.map (fun p => p.1)).zip (embedF (tte.map (fun p => p.2)))

/-- Lookup in the computed-embedding map. -/
def lookupComputed (m : List (Nat × List ℚ)) (i : Nat) : Option (List ℚ) :=
  (m.find? (fun p => p.1 = i)).map (fun p => p.2)

/-- Python `x if x is not None else y` on optional embeddings
(lines 78-82). -/
def firstSome (a b : Option (List ℚ)) : Option (List ℚ) :=
  match a with
  | some x => some x
  | none => b

/-- The row built for one accepted chunk (lines 98-115). -/
def mkRow (pathName : String) (p : Payload) (idx : Nat) (cd : ChunkData)
    (text : String) (emb : List ℚ) : Row :=
  let default_url := select_url p.urls
  { city := pyOr p.city_name p.city
    language := pyOr p.lang p.language
    title := pyOr cd.title p.city_name
    url := if default_url = "" then pyOr cd.url cd.source_url else some default_url
    source_file := some pathName
    chunk_index := some idx
    content := text
    embedding := some emb
    timestamp := p.timestamp
    author := none
    day := none
    meta := [("urls", joinSpace (p.urls.map (fun kv => kv.1 ++ ":" ++ kv.2)))] }

/-- The row-building pass of load_rows_from_file (lines 66-121).  The state
carries the expected dimension, inferred from the first accepted embedding,
and the count of skipped dimension-mismatched chunks; a chunk whose
dimension differs from the expected one is skipped individually. -/
def rowsLoop (pathName : String) (p : Payload) (cmap : List (Nat × List ℚ)) :
    List (Nat × ChunkEntry) → Option Nat → Nat → List Row × Nat
  | [], _, skipped => ([], skipped)
  | e :: rest, expected, skipped =>
    match e.2 with
    | ChunkEntry.junk => rowsLoop pathName p cmap rest expected skipped
    | ChunkEntry.chunk cd =>
      let text := pyStrip (chunkRawText cd)
      if text = "" then rowsLoop pathName p cmap rest expected skipped
      else
        match firstSome cd.embedding (lookupComputed cmap e.1) with
        | none => rowsLoop pathName p cmap rest expected skipped
        | some emb =>
          match expected with
          | none =>
            let res := rowsLoop pathName p cmap rest (some emb.length) skipped
            (mkRow pathName p e.1 cd text emb :: res.1, res.2)
          | some d =>
            if emb.length ≠ d then rowsLoop pathName p cmap rest (some d) (skipped + 1)
            else
              let res := rowsLoop pathName p cmap rest (some d) skipped
              (mkRow pathName p e.1 cd text emb :: res.1, res.2)

/-- ingest.load_rows_from_file (lines 30-121), taking the file's name and its
parsed JSON payload, with the embedding provider as a function.  Returns the
rows and the count of skipped dimension-mismatched chunks. -/
def load_rows_from_file (embedF : List String → List (List ℚ))
    (pathName : String) (p : Payload) : List Row × Nat :=
  match p.text_chunks with
  | none => ([], 0)
  | some entries =>
    let en := entries.enum
    rowsLoop pathName p (computedMap embedF en) en none 0

/-- The replace-then-insert step of ingest.main (lines 166-169): delete the
source's old records, then insert the new batch. -/
def ingestSource (source_file : String) (rows : List Row) (c : Collection) :
    Except String Collection :=
  insert_documents rows (delete_by_source source_file c)

/-- The per-file body of ingest.main (lines 147-177): skip a file yielding no
rows, or whose first row's non-empty embedding has a length different from
the expected dimensionality; otherwise delete the file's old records and
insert the new rows.  An insertion error is caught and the file reported as
skipped, after the deletion, as in the source.  Returns the new collection
and whether the file was skipped. -/
def processFile (embedF : List String → List (List ℚ)) (emb_dim : Nat)
    (pathName : String) (p : Payload) (c : Collection) : Collection × Bool :=
  let rows := (load_rows_from_file embedF pathName p).1
  match rows with
  | [] => (c, true)
  | r0 :: _ =>
    let skipFile : Bool :=
      match r0.embedding with
      | some e => !e.isEmpty && e.length != emb_dim
      | none => false
    if skipFile then (c, true)
    else
      match insert_documents rows (delete_by_source pathName c) with
      | Except.ok c2 => (c2, false)
      | Except.error _ => (delete_by_source pathName c, true)

/-- Example text: a 110-character sentence, a 125-character sentence and a
110-character sentence, separated by periods. -/
def exC1 : String :=
  String.mk (List.replicate 110 'a' ++ ['.'] ++ List.replicate 125 'b' ++ ['.'] ++
    List.replicate 110 'c')

/-- The middle sentence of exC1. -/
def exC1Chunk2 : String := String.mk (List.replicate 125 'b')

/-- A chunk carrying a 2-dimensional embedding. -/
def exChunkDim2 : ChunkData :=
  { text := some ("two dimensional chunk"), content := none, embedding := some [1, 0]
  , title := none, url := none, source_url := none }

/-- A chunk carrying a 3-dimensional embedding. -/
def exChunkDim3 : ChunkData :=
  { text := some ("three dimensional chunk"), content := none, embedding := some [0, 1, 0]
  , title := none, url := none, source_url := none }

/-- A payload whose chunk vectors have inconsistent dimensionality
(2, then 3). -/
def exMixedPayload : Payload :=
  { city_name := some ("Paris"), city := none, lang := some ("en"), language := none
  , timestamp := none, urls := []
  , text_chunks := some [ChunkEntry.chunk exChunkDim2, ChunkEntry.chunk exChunkDim3] }

/-- An embedding provider stub; the examples never consult it. -/
def noEmbed : List String → List (List ℚ) := fun _ => []

/-- Example metadata for a record of the given source file. -/
def exMeta (sf : String) : RecMeta :=
  { city := "Paris", language := "en", title := "t", url := "", source_file := sf
  , chunk_index := "0", timestamp := none, author := none, day := none, extra := [] }

/-- A 3-dimensional record of an old source. -/
def exRec3 : IndexedRec :=
  { id := "old_0", embedding := [1, 0, 0], document := "old doc", meta := exMeta ("old.json") }

/-- A collection built with dimensionality 3 holding one record. -/
def exColl3 : Collection := { dim := some 3, recs := [exRec3] }

/-- A row whose embedding has length 3. -/
def exRowDim3 : Row :=
  { city := some ("Paris"), language := some ("en"), title := some ("t"), url := some ("")
  , source_file := some ("f.json"), chunk_index := some 0, content := "text"
  , embedding := some [1, 0, 0], timestamp := none, author := none, day := none, meta := [] }

/-- A row whose embedding has length 2. -/
def exRowDim2 : Row :=
  { city := some ("Paris"), language := some ("en"), title := some ("t"), url := some ("")
  , source_file := some ("f.json"), chunk_index := some 0, content := "Paris has the Louvre"
  , embedding := some [1, 0], timestamp := none, author := none, day := none, meta := [] }

/-- An empty collection of declared dimensionality 2. -/
def exColl2 : Collection := { dim := some 2, recs := [] }

/-- A 2-dimensional record used by the search examples. -/
def exRec2 : IndexedRec :=
  { id := "f.json_0", embedding := [1, 0], document := "Paris has the Louvre museum"
  , meta := exMeta ("f.json") }

/-- A collection with one 2-dimensional record. -/
def exCollSearch : Collection := { dim := some 2, recs := [exRec2] }

/-- A distance function that always returns 2 (similarity 0). -/
def farDist : List ℚ → List ℚ → ℚ := fun _ _ => 2

/-- A distance function that always returns 0 (similarity 1). -/
def nearDist : List ℚ → List ℚ → ℚ := fun _ _ => 0

/-- A constant embedding provider. -/
def exEmbed : String → List ℚ := fun _ => [1, 0]

/-- A reranking provider stub. -/
def noRerank : String → List String → List ℚ := fun _ _ => []

/-- The default settings of config.py. -/
def exSettings : Settings := {}

/-- The records of a batch that survive an upsert of the whole batch: a
record survives when no later record of the batch carries the same id.  Used
to characterize the membership of upsertAll. -/
def survivors : List IndexedRec → IndexedRec → Prop
  | [], _ => False
  | r :: rest, y => survivors rest y ∨ (y = r ∧ y.id ∉ rest.map (fun x => x.id))

/-! ### Chunker lemmas and claim C1 -/

theorem length_joinBuf (l : List String) :
    (joinBuf l).length = (l.map String.length).sum := by
  induction l with
  | nil => rfl
  | cons s rest ih => simp [joinBuf, String.length_append, ih]

theorem joinBuf_singleton (s : String) : joinBuf [s] = s := by
  simp [joinBuf]

theorem splitLoop_bound (min_len max_len : Nat) (S : List String)
    (hmm : min_len ≤ max_len) :
    ∀ (sents current : List String) (length : Nat),
      (∀ s ∈ sents, pyStrip s ≠ "" → pyStrip s ∈ S) →
      length = (current.map String.length).sum →
      (current = [] ∨ length < min_len ∨ ∃ s ∈ S, current = [s]) →
      ∀ c ∈ splitLoop min_len max_len sents current length,
        c.length ≤ max_len ∨ c ∈ S := by
  intro sents
  induction sents with
  | nil =>
    intro current length hS hlen hbuf c hc
    simp only [splitLoop] at hc
    by_cases hcur : current = []
    · simp [hcur] at hc
    · rw [if_neg hcur] at hc
      simp only [List.mem_singleton] at hc
      subst hc
      rcases hbuf with h0 | hlt | ⟨t, htS, hteq⟩
      · exact absurd h0 hcur
      · left
        rw [length_joinBuf, ← hlen]
        omega
      · right
        rw [hteq, joinBuf_singleton]
        exact htS
  | cons s rest ih =>
    intro current length hS hlen hbuf c hc
    have hStail : ∀ t ∈ rest, pyStrip t ≠ "" → pyStrip t ∈ S :=
      fun t ht h => hS t (List.mem_cons_of_mem s ht) h
    simp only [splitLoop] at hc
    by_cases hempty : pyStrip s = ""
    · rw [if_pos hempty] at hc
      exact ih current length hStail hlen hbuf c hc
    · rw [if_neg hempty] at hc
      have hsentS : pyStrip s ∈ S := hS s (List.mem_cons_self s rest) hempty
      by_cases hmax : max_len < length + (pyStrip s).length
      · rw [if_pos hmax] at hc
        by_cases hcur : current = []
        · rw [if_pos hcur] at hc
          rcases List.mem_cons.mp hc with hceq | hcrest
          · subst hceq
            right
            exact hsentS
          · exact ih current length hStail hlen hbuf c hcrest
        · rw [if_neg hcur] at hc
          rcases List.mem_cons.mp hc with hceq | hcrest
          · subst hceq
            rcases hbuf with h0 | hlt | ⟨t, htS, hteq⟩
            · exact absurd h0 hcur
            · left
              rw [length_joinBuf, ← hlen]
              omega
            · right
              rw [hteq, joinBuf_singleton]
              exact htS
          · refine ih [pyStrip s] (pyStrip s).length hStail (by simp) ?_ c hcrest
            right; right
            exact ⟨pyStrip s, hsentS, rfl⟩
      · rw [if_neg hmax] at hc
        by_cases hminb : min_len ≤ length + (pyStrip s).length
        · rw [if_pos hminb] at hc
          rcases List.mem_cons.mp hc with hceq | hcrest
          · subst hceq
            left
            rw [length_joinBuf]
            simp only [List.map_append, List.sum_append, List.map_cons, List.sum_cons,
              List.map_nil, List.sum_nil]
            omega
          · exact ih [] 0 hStail rfl (Or.inl rfl) c hcrest
        · rw [if_neg hminb] at hc
          refine ih (current ++ [pyStrip s]) (length + (pyStrip s).length) hStail ?_ ?_ c hc
          · simp only [List.map_append, List.sum_append, List.map_cons, List.sum_cons,
              List.map_nil, List.sum_nil]
            omega
          · right; left
            omega

/-- C1 (amended): with min_length at most max_length, every chunk split_text
returns is at least 100 characters long, and is either at most max_length
characters long or one of the stripped sentences of the cleaned text, emitted
whole as its own chunk.  A chunk shorter than min_length can occur not only
as the final remainder but whenever the buffer is flushed because the next
sentence would overflow max_length. -/
theorem c1_chunk_length_amended (text : String) (min_len max_len : Nat)
    (hmm : min_len ≤ max_len) :
    ∀ c ∈ split_text text min_len max_len,
      100 ≤ c.length ∧ (c.length ≤ max_len ∨ c ∈ sentencesOf text) := by
  intro c hc
  simp only [split_text] at hc
  by_cases hcl : clean_text text = ""
  · rw [if_pos hcl] at hc
    exact absurd hc (List.not_mem_nil c)
  · rw [if_neg hcl] at hc
    have h100 : 100 ≤ c.length := by
      have := List.of_mem_filter hc
      simpa using this
    refine ⟨h100, ?_⟩
    refine splitLoop_bound min_len max_len (sentencesOf text) hmm
      (splitTermS (clean_text text)) [] 0 ?_ rfl (Or.inl rfl) c
      (List.mem_of_mem_filter hc)
    intro s hs hne
    exact List.mem_filter.mpr ⟨List.mem_map_of_mem pyStrip hs, by simpa using hne⟩

/-- C1 counterexample: with bounds 120 < 130, split_text on exC1 emits chunks
of lengths 110, 125 and 110.  The first chunk is shorter than min_length 120,
is not the final chunk, and is not a sentence exceeding max_length 130, so
the stated chunk-length bound fails. -/
theorem c1_counterexample :
    (split_text exC1 120 130).map String.length = [110, 125, 110] ∧
    110 < 120 ∧ 110 ≤ 130 ∧ 120 < 130 := by
  refine ⟨by decide, by decide, by decide, by decide⟩

/-- Witness: the amended C1 theorem applied to exC1 with bounds 120 ≤ 130 and
the concrete middle chunk. -/
theorem c1_chunk_length_amended_witness :
    100 ≤ exC1Chunk2.length ∧ (exC1Chunk2.length ≤ 130 ∨ exC1Chunk2 ∈ sentencesOf exC1) :=
  c1_chunk_length_amended exC1 120 130 (by decide) exC1Chunk2 (by decide)

/-! ### Collection lifecycle: claims C3, C4 -/

/-- C3: requesting the collection for a new positive dimensionality d2 while
the stored collection holds data of a different positive dimensionality d1
deletes the old collection and recreates it empty, and the fresh collection
accepts a d2-dimensional record on the next add. -/
theorem c3_migration_on_mismatch (c : Collection) (d1 d2 : Nat)
    (i doc : String) (m : RecMeta) (v : List ℚ)
    (hne : c.recs ≠ [])
    (hd1 : ∀ r ∈ c.recs, r.embedding.length = d1)
    (h1 : 0 < d1) (h2 : 0 < d2) (hdiff : d1 ≠ d2) (hv : v.length = d2) :
    getCollectionFresh (some c) d2 = (emptyColl, some emptyColl) ∧
    init_db (some c) d2 = some emptyColl ∧
    emptyColl.recs = [] ∧
    chromaAdd [i] [v] [doc] [m] emptyColl =
      Except.ok { dim := some d2
                , recs := [{ id := i, embedding := v, document := doc, meta := m }] } := by
  obtain ⟨r0, rs, hrecs⟩ : ∃ r0 rs, c.recs = r0 :: rs := by
    cases hcr : c.recs with
    | nil => exact absurd hcr hne
    | cons a l => exact ⟨a, l, rfl⟩
  have hr0 : r0.embedding.length = d1 := by
    apply hd1
    rw [hrecs]
    exact List.mem_cons_self r0 rs
  have hmain : getCollectionFresh (some c) d2 = (emptyColl, some emptyColl) := by
    simp only [getCollectionFresh, hrecs, List.head?_cons, hr0]
    rw [if_pos (by omega), if_pos hdiff]
  refine ⟨hmain, ?_, rfl, ?_⟩
  · simp only [init_db, hmain]
  · simp only [chromaAdd, emptyColl]
    rw [if_pos (by simp)]
    simp [upsertAll, upsertOne, zipRecs, hv]

/-- Witness: migration from dimensionality 3 to 2 on a concrete one-record
collection, and acceptance of a concrete 2-dimensional record afterwards. -/
theorem c3_migration_on_mismatch_witness :
    getCollectionFresh (some exColl3) 2 = (emptyColl, some emptyColl) ∧
    init_db (some exColl3) 2 = some emptyColl ∧
    emptyColl.recs = [] ∧
    chromaAdd ["n_0"] [[1, 0]] ["new doc"] [exMeta ("n.json")] emptyColl =
      Except.ok { dim := some 2
                , recs := [{ id := "n_0", embedding := [1, 0], document := "new doc"
                           , meta := exMeta ("n.json") }] } :=
  c3_migration_on_mismatch exColl3 3 2 "n_0" "new doc" (exMeta ("n.json")) [1, 0]
    (by decide) (by decide) (by decide) (by decide) (by decide) (by decide)

theorem filterMap_embedding_length (rows : List Row)
    (hall : ∀ r ∈ rows, r.embedding.isSome) :
    (rows.filterMap (fun r => r.embedding)).length = rows.length := by
  induction rows with
  | nil => rfl
  | cons r rest ih =>
    rcases Option.isSome_iff_exists.mp (hall r (List.mem_cons_self r rest)) with ⟨e, he⟩
    simp [List.filterMap_cons, he, ih (fun t ht => hall t (List.mem_cons_of_mem r ht))]

/-- C4: inserting a batch that contains a record whose vector length does not
match the collection's dimensionality fails the whole call with the dimension
error; no new collection state is produced, so the record set is unchanged. -/
theorem c4_dimension_invariant (rows : List Row) (c : Collection) (d : Nat)
    (hdim : c.dim = some d)
    (hall : ∀ r ∈ rows, r.embedding.isSome)
    (hbad : ∃ r ∈ rows, r.embedding.map List.length ≠ some d) :
    insert_documents rows c = Except.error dimMismatchMsg := by
  rcases hbad with ⟨r, hr, hlen⟩
  rcases Option.isSome_iff_exists.mp (hall r hr) with ⟨e, he⟩
  have hed : e.length ≠ d := by
    intro h
    apply hlen
    rw [he]
    simp [h]
  have hrows : rows ≠ [] := by
    intro h
    subst h
    exact absurd hr (List.not_mem_nil r)
  have hfil : rows.filter (fun r => r.embedding.isSome) = rows :=
    List.filter_eq_self.mpr (fun a ha => hall a ha)
  have hmem : e ∈ rows.filterMap (fun r => r.embedding) :=
    List.mem_filterMap.mpr ⟨r, hr, he⟩
  have hallf : ((rows.filterMap (fun r => r.embedding)).all (fun e => e.length = d)) = false := by
    rw [List.all_eq_false]
    exact ⟨e, hmem, by simpa using hed⟩
  simp only [insert_documents, if_neg hrows, hfil]
  have hlens : (rows.enum.map (fun p => docId p.1 p.2)).length =
      (rows.filterMap (fun r => r.embedding)).length ∧
      (rows.enum.map (fun p => docId p.1 p.2)).length = (rows.map (fun r => r.content)).length ∧
      (rows.enum.map (fun p => docId p.1 p.2)).length = (rows.map metaOfRow).length := by
    refine ⟨?_, by simp, by simp⟩
    rw [filterMap_embedding_length rows hall]
    simp
  simp only [chromaAdd, hdim, if_pos hlens]
  simp [hallf]

/-- Witness: a 3-dimensional row rejected by a collection of declared
dimensionality 2. -/
theorem c4_dimension_invariant_witness :
    insert_documents [exRowDim3] exColl2 = Except.error dimMismatchMsg :=
  c4_dimension_invariant [exRowDim3] exColl2 2 (by decide) (by decide)
    ⟨exRowDim3, by decide, by decide⟩

/-! ### Query pipeline: claims C10, C9, C5 -/

/-- C10: vector_search with an empty-string city filter behaves exactly like
vector_search with no city filter: the empty string is falsy in Python, so no
where clause is built and records of every city are eligible. -/
theorem c10_empty_city_filter (dist : List ℚ → List ℚ → ℚ) (c : Collection)
    (query_vector : List ℚ) (top_k : Nat) :
    vector_search dist c query_vector top_k (some ("")) =
      vector_search dist c query_vector top_k none := by
  rfl

theorem pyStrip_all_space (s : String) (h : ∀ ch ∈ s.data, pyIsSpace ch) :
    pyStrip s = "" := by
  unfold pyStrip pyStripL
  have h1 : s.data.dropWhile pyIsSpace = [] :=
    List.dropWhile_eq_nil_iff.mpr (fun x hx => h x hx)
  rw [h1]
  rfl

/-- C9: an empty or whitespace-only query makes search return the empty list
immediately, without invoking the embedding provider, the vector index or the
reranking provider. -/
theorem c9_blank_query_short_circuit (dist : List ℚ → List ℚ → ℚ)
    (coll : Collection) (embedF : String → List ℚ)
    (rerankF : String → List String → List ℚ) (s : Settings) (query : String)
    (city : Option String) (top_k : Option Nat)
    (hq : query = "" ∨ ∀ ch ∈ query.data, pyIsSpace ch) :
    searchT dist coll embedF rerankF s query city top_k =
      { results := [], embedCalled := false, indexCalled := false, rerankCalled := false } := by
  have hcond : query = "" ∨ pyStrip query = "" := by
    rcases hq with h | h
    · exact Or.inl h
    · exact Or.inr (pyStrip_all_space query h)
  simp [searchT, hcond]

/-- Witness: the short-circuit on a concrete whitespace-only query. -/
theorem c9_blank_query_short_circuit_witness :
    searchT farDist exCollSearch exEmbed noRerank {} "   " none none =
      { results := [], embedCalled := false, indexCalled := false, rerankCalled := false } :=
  c9_blank_query_short_circuit farDist exCollSearch exEmbed noRerank {} "   " none none
    (Or.inr (by decide))

/-- C5: when every coarse-retrieval candidate scores below the configured
minimum, search returns the empty list and the reranking provider is never
invoked, whatever reranking provider is supplied. -/
theorem c5_empty_candidate_short_circuit (dist : List ℚ → List ℚ → ℚ)
    (coll : Collection) (embedF : String → List ℚ)
    (rerankF : String → List String → List ℚ) (s : Settings) (query : String)
    (city : Option String) (top_k : Option Nat)
    (hlow : ∀ r ∈ vector_search dist coll (embedF (expandedQuery s query))
        (initialK s top_k) city, r.score < s.min_score) :
    (searchT dist coll embedF rerankF s query city top_k).results = [] ∧
    (searchT dist coll embedF rerankF s query city top_k).rerankCalled = false := by
  by_cases hq : query = "" ∨ pyStrip query = ""
  · simp [searchT, hq]
  · have hfil : (vector_search dist coll (embedF (expandedQuery s query))
        (initialK s top_k) city).filter (fun r => s.min_score ≤ r.score) = [] := by
      rw [List.filter_eq_nil_iff]
      intro r hr
      simpa using not_le.mpr (hlow r hr)
    simp [searchT, hq, hfil]

/-- Witness: with distance 2 every candidate of the concrete collection
scores 0, below the default floor of 0.15, so the search returns nothing and
never reranks. -/
theorem c5_empty_candidate_short_circuit_witness :
    (searchT farDist exCollSearch exEmbed noRerank {} "museum" none none).results = [] ∧
    (searchT farDist exCollSearch exEmbed noRerank {} "museum" none none).rerankCalled = false :=
  c5_empty_candidate_short_circuit farDist exCollSearch exEmbed noRerank {} "museum" none none
    (by decide)

/-! ### Score fusion and normalization: claim C6 -/

theorem foldl_min_le_init (l : List ℚ) (a : ℚ) : l.foldl min a ≤ a := by
  induction l generalizing a with
  | nil => exact le_refl a
  | cons x xs ih => exact le_trans (ih (min a x)) (min_le_left a x)

theorem foldl_min_le_mem (l : List ℚ) : ∀ (a x : ℚ), x ∈ l → l.foldl min a ≤ x := by
  induction l with
  | nil =>
    intro a x hx
    exact absurd hx (List.not_mem_nil x)
  | cons y ys ih =>
    intro a x hx
    rcases List.mem_cons.mp hx with h | h
    · subst h
      exact le_trans (foldl_min_le_init ys (min a x)) (min_le_right a x)
    · exact ih (min a y) x h

theorem init_le_foldl_max (l : List ℚ) (a : ℚ) : a ≤ l.foldl max a := by
  induction l generalizing a with
  | nil => exact le_refl a
  | cons x xs ih => exact le_trans (le_max_left a x) (ih (max a x))

theorem mem_le_foldl_max (l : List ℚ) : ∀ (a x : ℚ), x ∈ l → x ≤ l.foldl max a := by
  induction l with
  | nil =>
    intro a x hx
    exact absurd hx (List.not_mem_nil x)
  | cons y ys ih =>
    intro a x hx
    rcases List.mem_cons.mp hx with h | h
    · subst h
      exact le_trans (le_max_right a x) (init_le_foldl_max ys (max a x))
    · exact ih (max a y) x h

theorem listMin_le (rs : List ℚ) (x : ℚ) (hx : x ∈ rs) : listMin rs ≤ x := by
  cases rs with
  | nil => exact absurd hx (List.not_mem_nil x)
  | cons y ys =>
    rcases List.mem_cons.mp hx with h | h
    · subst h
      exact foldl_min_le_init ys x
    · exact foldl_min_le_mem ys y x h

theorem le_listMax (rs : List ℚ) (x : ℚ) (hx : x ∈ rs) : x ≤ listMax rs := by
  cases rs with
  | nil => exact absurd hx (List.not_mem_nil x)
  | cons y ys =>
    rcases List.mem_cons.mp hx with h | h
    · subst h
      exact init_le_foldl_max ys x
    · exact mem_le_foldl_max ys y x h

theorem foldl_min_const (y : ℚ) (ys : List ℚ) (h : ∀ z ∈ ys, z = y) :
    ys.foldl min y = y := by
  induction ys with
  | nil => rfl
  | cons z zs ih =>
    have hz : z = y := h z (List.mem_cons_self z zs)
    subst hz
    rw [List.foldl_cons, min_self]
    exact ih (fun w hw => h w (List.mem_cons_of_mem z hw))

theorem foldl_max_const (y : ℚ) (ys : List ℚ) (h : ∀ z ∈ ys, z = y) :
    ys.foldl max y = y := by
  induction ys with
  | nil => rfl
  | cons z zs ih =>
    have hz : z = y := h z (List.mem_cons_self z zs)
    subst hz
    rw [List.foldl_cons, max_self]
    exact ih (fun w hw => h w (List.mem_cons_of_mem z hw))

theorem applyFused_score (fs : List Result) :
    ∀ (rscores nscores : List ℚ) (i : Nat) (f out : Result) (n : ℚ),
      fs[i]? = some f → nscores[i]? = some n → i < rscores.length →
      (applyFused fs rscores nscores)[i]? = some out →
      out.score = fuse f.score n := by
  induction fs with
  | nil =>
    intro rs ns i f out n hf
    simp at hf
  | cons f0 ftail ih =>
    intro rs ns i f out n hf hn hi hout
    cases rs with
    | nil => simp at hi
    | cons r0 rtail =>
      cases ns with
      | nil => simp at hn
      | cons n0 ntail =>
        cases i with
        | zero =>
          simp only [applyFused, List.getElem?_cons_zero, Option.some.injEq] at hf hn hout
          subst hf
          subst hn
          subst hout
          rfl
        | succ j =>
          simp only [applyFused, List.getElem?_cons_succ] at hf hn hout
          exact ih rtail ntail j f out n hf hn (by simpa using hi) hout

/-- C6: the raw reranker scores are min-max normalized into the unit
interval, with every normalized score equal to 1 when all raw scores are
equal; the fused score applied by search is 0.3 times the vector similarity
plus 0.7 times the normalized rerank score; and a vector similarity of 0.5
with a normalized rerank score of 1 fuses to exactly 0.85. -/
theorem c6_fusion_normalization :
    (∀ rs : List ℚ, rs ≠ [] → (∀ x ∈ rs, ∀ y ∈ rs, x = y) →
      normalizeScores rs = List.replicate rs.length 1) ∧
    (∀ rs : List ℚ, ∀ x ∈ normalizeScores rs, 0 ≤ x ∧ x ≤ 1) ∧
    (∀ (fs : List Result) (rscores nscores : List ℚ) (i : Nat) (f out : Result) (n : ℚ),
      fs[i]? = some f → nscores[i]? = some n → i < rscores.length →
      (applyFused fs rscores nscores)[i]? = some out →
      out.score = 3 / 10 * f.score + 7 / 10 * n) ∧
    fuse (1 / 2) 1 = 85 / 100 := by
  refine ⟨?_, ?_, ?_, by decide⟩
  · intro rs hne hall
    cases rs with
    | nil => exact absurd rfl hne
    | cons y ys =>
      have hmn : listMin (y :: ys) = y :=
        foldl_min_const y ys (fun z hz => hall z (List.mem_cons_of_mem y hz) y (List.mem_cons_self y ys))
      have hmx : listMax (y :: ys) = y :=
        foldl_max_const y ys (fun z hz => hall z (List.mem_cons_of_mem y hz) y (List.mem_cons_self y ys))
      simp only [normalizeScores, hmn, hmx]
      rw [if_neg (lt_irrefl y)]
  · intro rs x hx
    cases rs with
    | nil => simp [normalizeScores] at hx
    | cons y ys =>
      simp only [normalizeScores] at hx
      by_cases hlt : listMin (y :: ys) < listMax (y :: ys)
      · rw [if_pos hlt] at hx
        rcases List.mem_map.mp hx with ⟨z, hz, rfl⟩
        have h1 : listMin (y :: ys) ≤ z := listMin_le (y :: ys) z hz
        have h2 : z ≤ listMax (y :: ys) := le_listMax (y :: ys) z hz
        have hpos : (0 : ℚ) < listMax (y :: ys) - listMin (y :: ys) := sub_pos.mpr hlt
        constructor
        · exact div_nonneg (sub_nonneg.mpr h1) (le_of_lt hpos)
        · rw [div_le_one hpos]
          exact sub_le_sub_right h2 (listMin (y :: ys))
      · rw [if_neg hlt] at hx
        have hx1 : x = 1 := List.eq_of_mem_replicate hx
        subst hx1
        exact ⟨zero_le_one, le_refl 1⟩
  · intro fs rscores nscores i f out n hf hn hi hout
    exact applyFused_score fs rscores nscores i f out n hf hn hi hout

/-- Witness: the C6 theorem applied to the concrete all-equal raw score list
[2, 2], to the membership of 1 in its normalization, and to the 0.5 / 1.0
fusion instance. -/
theorem c6_fusion_normalization_witness :
    normalizeScores [2, 2] = [1, 1] ∧
    (0 ≤ (1 : ℚ) ∧ (1 : ℚ) ≤ 1) ∧
    fuse (1 / 2) 1 = 85 / 100 := by
  have h1 := c6_fusion_normalization.1 [2, 2] (by decide) (by decide)
  have hmem : (1 : ℚ) ∈ normalizeScores [2, 2] := by
    rw [h1]
    simp [List.mem_replicate]
  refine ⟨by simpa using h1, c6_fusion_normalization.2.1 [2, 2] 1 hmem,
    c6_fusion_normalization.2.2.2⟩

/-! ### Score floor monotonicity: claim C8 -/

theorem length_insertAscBy {α : Type} (key : α → ℚ) (x : α) (l : List α) :
    (insertAscBy key x l).length = l.length + 1 := by
  induction l with
  | nil => rfl
  | cons y ys ih =>
    simp only [insertAscBy]
    by_cases h : key x < key y
    · rw [if_pos h]
      rfl
    · rw [if_neg h]
      simp [ih]

theorem length_sortAscBy {α : Type} (key : α → ℚ) (l : List α) :
    (sortAscBy key l).length = l.length := by
  induction l with
  | nil => rfl
  | cons x xs ih => simp [sortAscBy, length_insertAscBy, ih]

theorem length_applyFused (fs : List Result) :
    ∀ (rs ns : List ℚ), (applyFused fs rs ns).length = fs.length := by
  induction fs with
  | nil =>
    intro rs ns
    cases rs <;> cases ns <;> rfl
  | cons f ftail ih =>
    intro rs ns
    cases rs with
    | nil => rfl
    | cons r rtail =>
      cases ns with
      | nil => rfl
      | cons n ntail => simp [applyFused, ih]

theorem length_filter_score_mono (l : List Result) (m1 m2 : ℚ) (hm : m1 ≤ m2) :
    (l.filter (fun r => m2 ≤ r.score)).length ≤ (l.filter (fun r => m1 ≤ r.score)).length := by
  induction l with
  | nil => exact le_refl 0
  | cons r rest ih =>
    simp only [List.filter_cons]
    by_cases h2 : m2 ≤ r.score
    · have h1 : m1 ≤ r.score := le_trans hm h2
      rw [if_pos (decide_eq_true h2), if_pos (decide_eq_true h1)]
      simpa using ih
    · by_cases h1 : m1 ≤ r.score
      · rw [if_neg (by simpa using h2), if_pos (decide_eq_true h1)]
        simp only [List.length_cons]
        exact le_trans ih (Nat.le_succ _)
      · rw [if_neg (by simpa using h2), if_neg (by simpa using h1)]
        exact ih

theorem searchT_results_length (dist : List ℚ → List ℚ → ℚ) (coll : Collection)
    (embedF : String → List ℚ) (rerankF : String → List String → List ℚ)
    (s : Settings) (query : String) (city : Option String) (top_k : Option Nat)
    (hq : ¬(query = "" ∨ pyStrip query = "")) :
    (searchT dist coll embedF rerankF s query city top_k).results.length =
      min (effectiveK s top_k)
        ((vector_search dist coll (embedF (expandedQuery s query)) (initialK s top_k) city).filter
          (fun r => s.min_score ≤ r.score)).length := by
  simp only [searchT, if_neg hq]
  by_cases hfil : (vector_search dist coll (embedF (expandedQuery s query))
      (initialK s top_k) city).filter (fun r => s.min_score ≤ r.score) = []
  · simp [hfil]
  · rw [if_neg hfil]
    by_cases hrk : s.use_reranking = true ∧
        1 < ((vector_search dist coll (embedF (expandedQuery s query))
          (initialK s top_k) city).filter (fun r => s.min_score ≤ r.score)).length
    · rw [if_pos hrk]
      simp only [List.length_take, length_sortAscBy, length_applyFused]
    · rw [if_neg hrk]
      simp only [List.length_take]

theorem expandedQuery_set_min_score (s : Settings) (m : ℚ) (q : String) :
    expandedQuery { s with min_score := m } q = expandedQuery s q := rfl

theorem initialK_set_min_score (s : Settings) (m : ℚ) (tk : Option Nat) :
    initialK { s with min_score := m } tk = initialK s tk := rfl

theorem effectiveK_set_min_score (s : Settings) (m : ℚ) (tk : Option Nat) :
    effectiveK { s with min_score := m } tk = effectiveK s tk := rfl

theorem min_score_set_min_score (s : Settings) (m : ℚ) :
    ({ s with min_score := m } : Settings).min_score = m := rfl

/-- C8: for a fixed query, locale filter and top_k, raising the minimum
similarity threshold never increases the number of results returned by
search. -/
theorem c8_score_floor_monotone (dist : List ℚ → List ℚ → ℚ) (coll : Collection)
    (embedF : String → List ℚ) (rerankF : String → List String → List ℚ)
    (s : Settings) (query : String) (city : Option String) (top_k : Option Nat)
    (m1 m2 : ℚ) (hm : m1 ≤ m2) :
    (searchT dist coll embedF rerankF { s with min_score := m2 } query city top_k).results.length ≤
    (searchT dist coll embedF rerankF { s with min_score := m1 } query city top_k).results.length := by
  by_cases hq : query = "" ∨ pyStrip query = ""
  · simp [searchT, hq]
  · rw [searchT_results_length dist coll embedF rerankF { s with min_score := m2 }
        query city top_k hq,
      searchT_results_length dist coll embedF rerankF { s with min_score := m1 }
        query city top_k hq]
    simp only [expandedQuery_set_min_score, initialK_set_min_score, effectiveK_set_min_score,
      min_score_set_min_score]
    have hmono := length_filter_score_mono
      (vector_search dist coll (embedF (expandedQuery s query)) (initialK s top_k) city)
      m1 m2 hm
    omega

/-- Witness: the monotonicity theorem at a concrete collection and the
thresholds 1/4 ≤ 1/2. -/
theorem c8_score_floor_monotone_witness :
    (searchT nearDist exCollSearch exEmbed noRerank { exSettings with min_score := 1 / 2 }
      "museum" none none).results.length ≤
    (searchT nearDist exCollSearch exEmbed noRerank { exSettings with min_score := 1 / 4 }
      "museum" none none).results.length :=
  c8_score_floor_monotone nearDist exCollSearch exEmbed noRerank exSettings ("museum") none none
    (1 / 4) (1 / 2) (by decide)

/-! ### Upsert membership and ingestion idempotence: claim C7 -/

theorem mem_upsertOne (l : List IndexedRec) (r y : IndexedRec) :
    y ∈ upsertOne l r ↔ (y = r ∨ (y ∈ l ∧ y.id ≠ r.id)) := by
  simp only [upsertOne]
  by_cases h : (l.any (fun x => x.id = r.id)) = true
  · rw [if_pos h]
    constructor
    · intro hy
      rcases List.mem_map.mp hy with ⟨x, hx, hxy⟩
      by_cases hid : x.id = r.id
      · rw [if_pos hid] at hxy
        exact Or.inl hxy.symm
      · rw [if_neg hid] at hxy
        subst hxy
        exact Or.inr ⟨hx, hid⟩
    · intro hy
      rcases hy with rfl | ⟨hyl, hyid⟩
      · rcases List.any_eq_true.mp h with ⟨x, hx, hxid⟩
        refine List.mem_map.mpr ⟨x, hx, ?_⟩
        rw [if_pos (by simpa using hxid)]
      · refine List.mem_map.mpr ⟨y, hyl, ?_⟩
        rw [if_neg hyid]
  · rw [if_neg h]
    rw [List.mem_append, List.mem_singleton]
    constructor
    · intro hy
      rcases hy with hyl | rfl
      · refine Or.inr ⟨hyl, ?_⟩
        intro hid
        apply h
        exact List.any_eq_true.mpr ⟨y, hyl, by simpa using hid⟩
      · exact Or.inl rfl
    · intro hy
      rcases hy with rfl | ⟨hyl, _⟩
      · exact Or.inr rfl
      · exact Or.inl hyl

theorem mem_upsertAll (new : List IndexedRec) :
    ∀ (l : List IndexedRec) (y : IndexedRec),
      y ∈ upsertAll l new ↔
        (survivors new y ∨ (y ∈ l ∧ y.id ∉ new.map (fun x => x.id))) := by
  induction new with
  | nil =>
    intro l y
    simp [upsertAll, survivors]
  | cons r rest ih =>
    intro l y
    have h1 : upsertAll l (r :: rest) = upsertAll (upsertOne l r) rest := rfl
    rw [h1, ih (upsertOne l r) y, mem_upsertOne]
    simp only [survivors, List.map_cons, List.mem_cons]
    push_neg
    tauto

theorem survivors_mem (new : List IndexedRec) (y : IndexedRec) :
    survivors new y → y ∈ new := by
  induction new with
  | nil =>
    intro h
    exact absurd h (by simp [survivors])
  | cons r rest ih =>
    intro h
    rcases h with h | ⟨heq, _⟩
    · exact List.mem_cons_of_mem r (ih h)
    · subst heq
      exact List.mem_cons_self _ _

theorem survivors_exists (new : List IndexedRec) :
    new ≠ [] → ∃ y, survivors new y ∧ y ∈ new := by
  induction new with
  | nil =>
    intro h
    exact absurd rfl h
  | cons r rest ih =>
    intro _
    cases rest with
    | nil => exact ⟨r, Or.inr ⟨rfl, by simp⟩, List.mem_cons_self r []⟩
    | cons r2 rrest =>
      rcases ih (by simp) with ⟨y, hs, hm⟩
      exact ⟨y, Or.inl hs, List.mem_cons_of_mem r hm⟩

theorem zipRecs_meta_mem (is : List String) :
    ∀ (es : List (List ℚ)) (ds : List String) (ms : List RecMeta) (y : IndexedRec),
      y ∈ zipRecs is es ds ms → y.meta ∈ ms := by
  induction is with
  | nil =>
    intro es ds ms y hy
    simp [zipRecs] at hy
  | cons i itail ih =>
    intro es ds ms y hy
    cases es with
    | nil => simp [zipRecs] at hy
    | cons e etail =>
      cases ds with
      | nil => simp [zipRecs] at hy
      | cons dd dtail =>
        cases ms with
        | nil => simp [zipRecs] at hy
        | cons m mtail =>
          rcases List.mem_cons.mp hy with rfl | hrest
          · exact List.mem_cons_self m mtail
          · exact List.mem_cons_of_mem m (ih etail dtail mtail y hrest)

theorem mem_delete_by_source (sid : String) (c : Collection) (y : IndexedRec) :
    y ∈ (delete_by_source sid c).recs ↔ (y ∈ c.recs ∧ y.meta.source_file ≠ sid) := by
  simp [delete_by_source]

theorem insert_documents_ok (rows : List Row) (c : Collection) (d : Nat)
    (hdim : c.dim = some d)
    (hemb : ∀ r ∈ rows, r.embedding.map List.length = some d)
    (hne : rows ≠ []) :
    insert_documents rows c = Except.ok
      { dim := some d
      , recs := upsertAll c.recs
          (zipRecs (rows.enum.map (fun p => docId p.1 p.2))
            (rows.filterMap (fun r => r.embedding))
            (rows.map (fun r => r.content))
            (rows.map metaOfRow)) } := by
  have hall : ∀ r ∈ rows, r.embedding.isSome := by
    intro r hr
    have h := hemb r hr
    cases hre : r.embedding with
    | none =>
      rw [hre] at h
      simp at h
    | some e => rfl
  have hfil : rows.filter (fun r => r.embedding.isSome) = rows :=
    List.filter_eq_self.mpr hall
  simp only [insert_documents, if_neg hne, hfil]
  have hlens : (rows.enum.map (fun p => docId p.1 p.2)).length =
      (rows.filterMap (fun r => r.embedding)).length ∧
      (rows.enum.map (fun p => docId p.1 p.2)).length = (rows.map (fun r => r.content)).length ∧
      (rows.enum.map (fun p => docId p.1 p.2)).length = (rows.map metaOfRow).length := by
    refine ⟨?_, by simp, by simp⟩
    rw [filterMap_embedding_length rows hall]
    simp
  have halltrue : ((rows.filterMap (fun r => r.embedding)).all (fun e => e.length = d)) = true := by
    rw [List.all_eq_true]
    intro e he
    rcases List.mem_filterMap.mp he with ⟨r, hr, hre⟩
    have h := hemb r hr
    rw [hre] at h
    simpa using h
  simp only [chromaAdd, hdim, if_pos hlens]
  simp [halltrue]

theorem recsOfRows_source (rows : List Row) (sid : String)
    (hsrc : ∀ r ∈ rows, r.source_file = some sid) :
    ∀ y ∈ zipRecs (rows.enum.map (fun p => docId p.1 p.2))
        (rows.filterMap (fun r => r.embedding))
        (rows.map (fun r => r.content))
        (rows.map metaOfRow), y.meta.source_file = sid := by
  intro y hy
  have hm := zipRecs_meta_mem _ _ _ _ y hy
  rcases List.mem_map.mp hm with ⟨r, hr, hmeq⟩
  rw [← hmeq]
  simp [metaOfRow, hsrc r hr]

theorem upsertAll_reingest_mem (recs : List IndexedRec) (new : List IndexedRec)
    (sid : String) (y : IndexedRec) :
    (y ∈ upsertAll ((upsertAll (recs.filter (fun r => r.meta.source_file ≠ sid)) new).filter
        (fun r => r.meta.source_file ≠ sid)) new ↔
      y ∈ upsertAll (recs.filter (fun r => r.meta.source_file ≠ sid)) new) := by
  rw [mem_upsertAll, mem_upsertAll]
  have hB2 : y ∈ (upsertAll (recs.filter (fun r => r.meta.source_file ≠ sid)) new).filter
      (fun r => r.meta.source_file ≠ sid) ↔
      ((survivors new y ∨ (y ∈ recs.filter (fun r => r.meta.source_file ≠ sid) ∧
          y.id ∉ new.map (fun x => x.id))) ∧ y.meta.source_file ≠ sid) := by
    rw [List.mem_filter, mem_upsertAll]
    simp
  have hB1 : y ∈ recs.filter (fun r => r.meta.source_file ≠ sid) →
      y.meta.source_file ≠ sid := by
    intro h
    have h2 := List.mem_filter.mp h
    simpa using h2.2
  rw [hB2]
  tauto

/-- C7: ingesting the same (source_id, rows) twice leaves the collection with
the same set of records as ingesting it once: the source's records are
deleted before each insertion, so the second run rewrites exactly what the
first run wrote. -/
theorem c7_idempotent_reingestion (c : Collection) (rows : List Row)
    (sid : String) (d : Nat)
    (hdim : c.dim = some d)
    (hemb : ∀ r ∈ rows, r.embedding.map List.length = some d) :
    ∃ c1 c2, ingestSource sid rows c = Except.ok c1 ∧
      ingestSource sid rows c1 = Except.ok c2 ∧
      ∀ y, (y ∈ c2.recs ↔ y ∈ c1.recs) := by
  by_cases hne : rows = []
  · subst hne
    refine ⟨delete_by_source sid c, delete_by_source sid (delete_by_source sid c), ?_, ?_, ?_⟩
    · simp [ingestSource, insert_documents]
    · simp [ingestSource, insert_documents]
    · intro y
      rw [mem_delete_by_source, mem_delete_by_source]
      tauto
  · refine ⟨_, _, insert_documents_ok rows (delete_by_source sid c) d hdim hemb hne,
      insert_documents_ok rows _ d rfl hemb hne, ?_⟩
    intro y
    exact upsertAll_reingest_mem c.recs
      (zipRecs (rows.enum.map (fun p => docId p.1 p.2))
        (rows.filterMap (fun r => r.embedding))
        (rows.map (fun r => r.content))
        (rows.map metaOfRow)) sid y

/-- Witness: re-ingesting one concrete row batch over a collection that
already holds the same record. -/
theorem c7_idempotent_reingestion_witness :
    ∃ c1 c2, ingestSource ("f.json") [exRowDim2] exCollSearch = Except.ok c1 ∧
      ingestSource ("f.json") [exRowDim2] c1 = Except.ok c2 ∧
      ∀ y, (y ∈ c2.recs ↔ y ∈ c1.recs) :=
  c7_idempotent_reingestion exCollSearch [exRowDim2] "f.json" 2 (by decide) (by decide)

/-! ### Per-file ingestion and dimension handling: claim C2 -/

theorem rowsLoop_dims (pathName : String) (p : Payload) (cmap : List (Nat × List ℚ)) :
    ∀ (entries : List (Nat × ChunkEntry)) (d skipped : Nat),
      ∀ r ∈ (rowsLoop pathName p cmap entries (some d) skipped).1,
        r.embedding.map List.length = some d := by
  intro entries
  induction entries with
  | nil =>
    intro d skipped r hr
    simp [rowsLoop] at hr
  | cons e etail ih =>
    intro d skipped r hr
    obtain ⟨i, ce⟩ := e
    cases ce with
    | junk =>
      simp only [rowsLoop] at hr
      exact ih d skipped r hr
    | chunk cd =>
      simp only [rowsLoop] at hr
      by_cases htext : pyStrip (chunkRawText cd) = ""
      · rw [if_pos htext] at hr
        exact ih d skipped r hr
      · rw [if_neg htext] at hr
        cases hfs : firstSome cd.embedding (lookupComputed cmap i) with
        | none =>
          rw [hfs] at hr
          exact ih d skipped r hr
        | some emb =>
          rw [hfs] at hr
          dsimp only at hr
          by_cases hd : emb.length ≠ d
          · rw [if_pos hd] at hr
            exact ih d (skipped + 1) r hr
          · rw [if_neg hd] at hr
            push_neg at hd
            rcases List.mem_cons.mp hr with heq | hrr
            · rw [heq]
              simp [mkRow, hd]
            · exact ih d skipped r hrr

theorem rowsLoop_none (pathName : String) (p : Payload) (cmap : List (Nat × List ℚ)) :
    ∀ (entries : List (Nat × ChunkEntry)) (skipped : Nat) (r0 : Row) (rest : List Row),
      (rowsLoop pathName p cmap entries none skipped).1 = r0 :: rest →
      ∃ dd, r0.embedding.map List.length = some dd ∧
        ∀ r ∈ r0 :: rest, r.embedding.map List.length = some dd := by
  intro entries
  induction entries with
  | nil =>
    intro skipped r0 rest h
    simp [rowsLoop] at h
  | cons e etail ih =>
    intro skipped r0 rest h
    obtain ⟨i, ce⟩ := e
    cases ce with
    | junk =>
      simp only [rowsLoop] at h
      exact ih skipped r0 rest h
    | chunk cd =>
      simp only [rowsLoop] at h
      by_cases htext : pyStrip (chunkRawText cd) = ""
      · rw [if_pos htext] at h
        exact ih skipped r0 rest h
      · rw [if_neg htext] at h
        cases hfs : firstSome cd.embedding (lookupComputed cmap i) with
        | none =>
          rw [hfs] at h
          exact ih skipped r0 rest h
        | some emb =>
          rw [hfs] at h
          dsimp only at h
          simp only [List.cons.injEq] at h
          refine ⟨emb.length, ?_, ?_⟩
          · rw [← h.1]
            simp [mkRow]
          · intro r hr
            rcases List.mem_cons.mp hr with heq | hrr
            · rw [heq, ← h.1]
              simp [mkRow]
            · rw [← h.2] at hrr
              exact rowsLoop_dims pathName p cmap etail emb.length skipped r hrr

theorem rowsLoop_source (pathName : String) (p : Payload) (cmap : List (Nat × List ℚ)) :
    ∀ (entries : List (Nat × ChunkEntry)) (expected : Option Nat) (skipped : Nat),
      ∀ r ∈ (rowsLoop pathName p cmap entries expected skipped).1,
        r.source_file = some pathName := by
  intro entries
  induction entries with
  | nil =>
    intro expected skipped r hr
    simp [rowsLoop] at hr
  | cons e etail ih =>
    intro expected skipped r hr
    obtain ⟨i, ce⟩ := e
    cases ce with
    | junk =>
      simp only [rowsLoop] at hr
      exact ih expected skipped r hr
    | chunk cd =>
      simp only [rowsLoop] at hr
      by_cases htext : pyStrip (chunkRawText cd) = ""
      · rw [if_pos htext] at hr
        exact ih expected skipped r hr
      · rw [if_neg htext] at hr
        cases hfs : firstSome cd.embedding (lookupComputed cmap i) with
        | none =>
          rw [hfs] at hr
          exact ih expected skipped r hr
        | some emb =>
          rw [hfs] at hr
          dsimp only at hr
          cases expected with
          | none =>
            dsimp only at hr
            rcases List.mem_cons.mp hr with heq | hrr
            · rw [heq]
              rfl
            · exact ih (some emb.length) skipped r hrr
          | some d =>
            dsimp only at hr
            by_cases hd : emb.length ≠ d
            · rw [if_pos hd] at hr
              exact ih (some d) (skipped + 1) r hr
            · rw [if_neg hd] at hr
              rcases List.mem_cons.mp hr with heq | hrr
              · rw [heq]
                rfl
              · exact ih (some d) skipped r hrr

theorem load_rows_source (embedF : List String → List (List ℚ)) (pathName : String)
    (p : Payload) :
    ∀ r ∈ (load_rows_from_file embedF pathName p).1, r.source_file = some pathName := by
  cases htc : p.text_chunks with
  | none => simp [load_rows_from_file, htc]
  | some entries =>
    simp only [load_rows_from_file, htc]
    exact rowsLoop_source pathName p (computedMap embedF entries.enum) entries.enum none 0

theorem load_rows_uniform (embedF : List String → List (List ℚ)) (pathName : String)
    (p : Payload) (r0 : Row) (rest : List Row)
    (hrows : (load_rows_from_file embedF pathName p).1 = r0 :: rest) :
    ∃ dd, r0.embedding.map List.length = some dd ∧
      ∀ r ∈ r0 :: rest, r.embedding.map List.length = some dd := by
  cases htc : p.text_chunks with
  | none =>
    rw [load_rows_from_file, htc] at hrows
    simp at hrows
  | some entries =>
    rw [load_rows_from_file, htc] at hrows
    exact rowsLoop_none pathName p (computedMap embedF entries.enum) entries.enum 0 r0 rest hrows

/-- C2 counterexample: the payload exMixedPayload carries two chunks whose
embedding dimensionalities differ (2 and 3), yet with expected
dimensionality 2 the file is not skipped and one record of the source is
written to the collection: the source is partially indexed, not wholly
rejected. -/
theorem c2_counterexample :
    exChunkDim2.embedding.map List.length = some 2 ∧
    exChunkDim3.embedding.map List.length = some 3 ∧
    (load_rows_from_file noEmbed ("mixed.json") exMixedPayload).2 = 1 ∧
    (processFile noEmbed 2 "mixed.json" exMixedPayload emptyColl).2 = false ∧
    ((processFile noEmbed 2 "mixed.json" exMixedPayload emptyColl).1.recs.map
      (fun r => r.meta.source_file)) = ["mixed.json"] := by
  refine ⟨by decide, by decide, by decide, by decide, by decide⟩

/-- C2 (amended): a source with mixed-dimensionality chunk vectors is not
rejected wholesale.  Chunks whose embedding length differs from the file's
first accepted chunk are skipped one by one, so all surviving rows share the
first row's dimensionality; and when rows survive and that dimensionality
matches the expected one, the file is processed: it is not reported as
skipped and a record of the source is written (the source is partially
indexed). -/
theorem c2_per_chunk_skip_amended (embedF : List String → List (List ℚ))
    (pathName : String) (p : Payload) (emb_dim : Nat) (c : Collection)
    (r0 : Row) (rest : List Row)
    (hdim : c.dim = some emb_dim) (hpos : 0 < emb_dim)
    (hrows : (load_rows_from_file embedF pathName p).1 = r0 :: rest)
    (hfirst : r0.embedding.map List.length = some emb_dim) :
    (∀ r ∈ (load_rows_from_file embedF pathName p).1,
      r.embedding.map List.length = some emb_dim) ∧
    (processFile embedF emb_dim pathName p c).2 = false ∧
    ∃ y ∈ (processFile embedF emb_dim pathName p c).1.recs,
      y.meta.source_file = pathName := by
  obtain ⟨dd, hdd0, hddall⟩ := load_rows_uniform embedF pathName p r0 rest hrows
  have hdde : dd = emb_dim := by
    apply Option.some.inj
    rw [← hdd0]
    exact hfirst
  rw [hdde] at hddall
  have huni : ∀ r ∈ (load_rows_from_file embedF pathName p).1,
      r.embedding.map List.length = some emb_dim := by
    rw [hrows]
    exact hddall
  obtain ⟨e0, he0, hlen0⟩ : ∃ e, r0.embedding = some e ∧ e.length = emb_dim := by
    cases hre : r0.embedding with
    | none =>
      rw [hre] at hfirst
      simp at hfirst
    | some e =>
      rw [hre] at hfirst
      simp only [Option.map_some', Option.some.injEq] at hfirst
      exact ⟨e, rfl, hfirst⟩
  have hins := insert_documents_ok (r0 :: rest) (delete_by_source pathName c) emb_dim hdim
    hddall (by simp)
  have hproc : processFile embedF emb_dim pathName p c =
      ({ dim := some emb_dim
       , recs := upsertAll (delete_by_source pathName c).recs
          (zipRecs ((r0 :: rest).enum.map (fun q => docId q.1 q.2))
            ((r0 :: rest).filterMap (fun r => r.embedding))
            ((r0 :: rest).map (fun r => r.content))
            ((r0 :: rest).map metaOfRow)) }, false) := by
    simp only [processFile, hrows, he0]
    rw [if_neg (by simp [hlen0])]
    rw [hins]
  refine ⟨huni, by rw [hproc], ?_⟩
  have hnewne : (zipRecs ((r0 :: rest).enum.map (fun q => docId q.1 q.2))
      ((r0 :: rest).filterMap (fun r => r.embedding))
      ((r0 :: rest).map (fun r => r.content))
      ((r0 :: rest).map metaOfRow)) ≠ [] := by
    simp [List.enum_cons, List.filterMap_cons, he0, zipRecs]
  obtain ⟨y, hy_surv, hy_mem⟩ := survivors_exists _ hnewne
  have hsrcrows : ∀ r ∈ r0 :: rest, r.source_file = some pathName := by
    rw [← hrows]
    exact load_rows_source embedF pathName p
  refine ⟨y, ?_, recsOfRows_source (r0 :: rest) pathName hsrcrows y hy_mem⟩
  rw [hproc]
  exact (mem_upsertAll _ _ y).mpr (Or.inl hy_surv)

/-- Witness: the amended C2 theorem applied to the concrete mixed-dimension
payload with expected dimensionality 2 and a collection of dimensionality 2. -/
theorem c2_per_chunk_skip_amended_witness :
    (∀ r ∈ (load_rows_from_file noEmbed ("mixed.json") exMixedPayload).1,
      r.embedding.map List.length = some 2) ∧
    (processFile noEmbed 2 "mixed.json" exMixedPayload exColl2).2 = false ∧
    ∃ y ∈ (processFile noEmbed 2 "mixed.json" exMixedPayload exColl2).1.recs,
      y.meta.source_file = "mixed.json" :=
  c2_per_chunk_skip_amended noEmbed ("mixed.json") exMixedPayload 2 exColl2
    (mkRow ("mixed.json") exMixedPayload 0 exChunkDim2 ("two dimensional chunk") [1, 0]) []
    (by decide) (by decide) (by decide) (by decide)

end YataRag
